import Mathlib

/-!
Verification of the bounded circular audio buffer shared between the producer
and consumer threads of the drawing-canvas-with-audio programs
(`src/unnamed/part_005` and `src/A9/Ahmad (Used)/A9.c`), and of the message
ring buffer of `src/unnamed/part_006`.

The C code is embedded shallowly:

* The fixed byte array `uint8_t data[BUFFER_SIZE]` becomes a `List Nat`
  (bytes as naturals); `memcpy`/`memset` become explicit list surgery.
* `BUFFER_SIZE` (32768 in the source) is carried as a parameter `C` so the
  theorems hold for every capacity; the source value is `BUFFER_SIZE` below.
* The mutex serializes every call, so each call body is a pure function of
  the buffer state.  The `volatile` flags `keep_running` and
  `is_audio_playing` are passed as booleans; where a single loop iteration
  reads `keep_running` twice (once in the `while` guard, once inside the
  empty-buffer branch) the step function takes both read results, since the
  flag is volatile and may change between the two reads.
* `pthread_cond_wait` with no concurrent peer never returns, so the
  sequential semantics of a call that reaches such a wait is "blocked",
  modelled by `Option.none`.  `pthread_cond_timedwait` with no concurrent
  producer returns `ETIMEDOUT`, which is the deterministic sequential
  outcome modelled for the 5 ms wait in `read_from_buffer`.
* Loops are driven by fuel that provably dominates every terminating
  execution; running out of fuel coincides with reaching a state from which
  the loop can never terminate (a genuine block).
-/

set_option maxHeartbeats 1000000

/-- The `BUFFER_SIZE` constant of `src/unnamed/part_005` (line 39). -/
def BUFFER_SIZE : Nat := 32768

/-- `memcpy(dst + pos, src, src.length)`: overwrite `dst` starting at offset
`pos` with the bytes of `src`.  When `pos + src.length ≤ dst.length` the
result has the same length as `dst`; a longer result makes a write past the
end of the destination visible. -/
def memcpyList (dst : List Nat) (pos : Nat) (src : List Nat) : List Nat :=
  dst.take pos ++ src ++ dst.drop (pos + src.length)

/-- `memset(dst + pos, 0, len)`: zero `len` bytes of `dst` from offset `pos`. -/
def memsetList (dst : List Nat) (pos len : Nat) : List Nat :=
  memcpyList dst pos (List.replicate len 0)

/-- The `CircularBuffer` struct of `src/unnamed/part_005` (lines 51-59),
without the pthread synchronisation handles (the mutex serializes calls and
the condition variables only mediate blocking, both handled by the embedding
itself). -/
structure CircularBuffer where
  data : List Nat
  read_pos : Nat
  write_pos : Nat
  size : Nat
deriving DecidableEq

/-- `init_circular_buffer` (`part_005` lines 122-130): positions and size are
zeroed.  The backing array of the `static` buffer object is zero-initialized
by the C runtime. -/
def init_circular_buffer (C : Nat) : CircularBuffer :=
  { data := List.replicate C 0, read_pos := 0, write_pos := 0, size := 0 }

/-- One transfer of the loop body of `write_to_buffer` (`part_005` lines
146-158): copy `chunk` at `write_pos`, in one `memcpy` when it fits in the
contiguous run `first_chunk = BUFFER_SIZE - write_pos`, otherwise split in
two `memcpy`s, then advance `write_pos` and grow `size`. -/
def writeChunk (C : Nat) (buf : CircularBuffer) (chunk : List Nat) : CircularBuffer :=
  let first_chunk := C - buf.write_pos
  if chunk.length ≤ first_chunk then
    { buf with
        data := memcpyList buf.data buf.write_pos chunk
        write_pos := (buf.write_pos + chunk.length) % C
        size := buf.size + chunk.length }
  else
    { buf with
        data := memcpyList (memcpyList buf.data buf.write_pos (chunk.take first_chunk))
                  0 (chunk.drop first_chunk)
        write_pos := chunk.length - first_chunk
        size := buf.size + chunk.length }

/-- One transfer of the loop body of `read_from_buffer` (`part_005` lines
206-218): copy `n` bytes out from `read_pos` (one or two `memcpy`s), advance
`read_pos`, shrink `size`.  Returns the new buffer and the bytes delivered. -/
def readChunk (C : Nat) (buf : CircularBuffer) (n : Nat) : CircularBuffer × List Nat :=
  let first_chunk := C - buf.read_pos
  if n ≤ first_chunk then
    ({ buf with read_pos := (buf.read_pos + n) % C, size := buf.size - n },
     (buf.data.drop buf.read_pos).take n)
  else
    ({ buf with read_pos := n - first_chunk, size := buf.size - n },
     (buf.data.drop buf.read_pos).take first_chunk ++ buf.data.take (n - first_chunk))

/-- The `while` loop of `write_to_buffer` (`part_005` lines 138-164), with
`keep_running` fixed to `kr` for the whole call (sequentially the flag does
not change mid-call).  `rest` is the unwritten suffix of the caller's data,
`written` the accumulated `bytes_written`.  A full buffer reaches
`pthread_cond_wait(&not_full, ...)`, which no sequential peer ever signals:
the call blocks, modelled as `none`. -/
def write_loop (C : Nat) (kr : Bool) :
    Nat → CircularBuffer → List Nat → Nat → Option (CircularBuffer × Nat)
  | 0, _, _, _ => none
  | fuel + 1, buf, rest, written =>
    if rest.length = 0 ∨ kr = false then
      some (buf, written)
    else
      let available := C - buf.size
      if available = 0 then
        none
      else
        let to_write := min rest.length available
        write_loop C kr fuel (writeChunk C buf (rest.take to_write))
          (rest.drop to_write) (written + to_write)

/-- `write_to_buffer` (`part_005` lines 133-168): run the write loop on the
whole of `data` with fuel that dominates every terminating execution (each
iteration moves at least one byte). -/
def write_to_buffer (C : Nat) (kr : Bool) (buf : CircularBuffer) (data : List Nat) :
    Option (CircularBuffer × Nat) :=
  write_loop C kr (data.length + 1) buf data 0

/-- Outcome of one iteration of the `read_from_buffer` loop: `done` carries
the state at `return` (buffer, caller's destination, returned count);
`next` carries the state at `continue`. -/
inductive ReadStep where
  | done (buf : CircularBuffer) (dst : List Nat) (ret : Nat) : ReadStep
  | next (buf : CircularBuffer) (dst : List Nat) (bytesRead : Nat) : ReadStep
deriving DecidableEq

/-- One iteration of the `while` loop of `read_from_buffer` (`part_005`
lines 177-224).  `kr1` is the value read from the volatile `keep_running` at
the `while` guard, `kr2` the value read inside the empty-buffer branch
(`!keep_running || !is_audio_playing`); the two reads may differ when the
flag is cleared concurrently.  The 5 ms `pthread_cond_timedwait` with no
producer to signal `not_empty` returns `ETIMEDOUT`: the iteration then
zeroes `size / 10` bytes (10% of the requested size) and continues. -/
def read_step (C : Nat) (kr1 kr2 playing : Bool) (size : Nat)
    (buf : CircularBuffer) (dst : List Nat) (bytes_read : Nat) : ReadStep :=
  if bytes_read < size ∧ kr1 = true then
    if buf.size = 0 then
      if kr2 = false ∨ playing = false then
        ReadStep.done buf (memsetList dst bytes_read (size - bytes_read)) size
      else
        let silence_size := size / 10
        if 0 < silence_size then
          ReadStep.next buf (memsetList dst bytes_read silence_size)
            (bytes_read + silence_size)
        else
          ReadStep.next buf dst bytes_read
    else
      let to_read := min (size - bytes_read) buf.size
      ReadStep.next (readChunk C buf to_read).1
        (memcpyList dst bytes_read (readChunk C buf to_read).2)
        (bytes_read + to_read)
  else
    ReadStep.done buf dst bytes_read

/-- Iterate `read_step` with both reads of `keep_running` returning the same
fixed value `kr` (the sequential semantics of the call). -/
def read_loop (C : Nat) (kr playing : Bool) (size : Nat) :
    Nat → CircularBuffer → List Nat → Nat → Option (CircularBuffer × List Nat × Nat)
  | 0, _, _, _ => none
  | fuel + 1, buf, dst, br =>
    match read_step C kr kr playing size buf dst br with
    | ReadStep.done b d r => some (b, d, r)
    | ReadStep.next b d br' => read_loop C kr playing size fuel b d br'

/-- `read_from_buffer` (`part_005` lines 171-228): run the read loop with
fuel `size + 2`, which dominates every terminating execution (every
productive iteration moves at least one byte; the only unproductive
iteration repeats its own state exactly, so the loop then never
terminates and exhausting the fuel reports that genuine block as `none`). -/
def read_from_buffer (C : Nat) (kr playing : Bool) (buf : CircularBuffer)
    (dst : List Nat) (size : Nat) : Option (CircularBuffer × List Nat × Nat) :=
  read_loop C kr playing size (size + 2) buf dst 0

/-- One iteration of the `while` loop of `read_from_buffer` in
`src/A9/Ahmad (Used)/A9.c` (lines 168-209).  This variant has no
`is_audio_playing` check: its empty-buffer branch tests only
`!keep_running` (second volatile read `kr2`), and otherwise parks in an
untimed `pthread_cond_wait(&not_empty, ...)`, which no sequential peer ever
signals — that blocked outcome is `none`.  The transfer arm is the same
one/two-`memcpy` split as `part_005`, shared through `readChunk`. -/
def read_step_A9 (C : Nat) (kr1 kr2 : Bool) (size : Nat)
    (buf : CircularBuffer) (dst : List Nat) (bytes_read : Nat) :
    Option ReadStep :=
  if bytes_read < size ∧ kr1 = true then
    if buf.size = 0 then
      if kr2 = false then
        some (ReadStep.done buf (memsetList dst bytes_read (size - bytes_read))
          size)
      else
        none
    else
      let to_read := min (size - bytes_read) buf.size
      some (ReadStep.next (readChunk C buf to_read).1
        (memcpyList dst bytes_read (readChunk C buf to_read).2)
        (bytes_read + to_read))
  else
    some (ReadStep.done buf dst bytes_read)

/-- Iterate `read_step_A9` with both reads of `keep_running` returning the
same fixed value `kr` (the sequential semantics of the `A9.c` call). -/
def read_loop_A9 (C : Nat) (kr : Bool) (size : Nat) :
    Nat → CircularBuffer → List Nat → Nat → Option (CircularBuffer × List Nat × Nat)
  | 0, _, _, _ => none
  | fuel + 1, buf, dst, br =>
    match read_step_A9 C kr kr size buf dst br with
    | none => none
    | some (ReadStep.done b d r) => some (b, d, r)
    | some (ReadStep.next b d br') => read_loop_A9 C kr size fuel b d br'

/-- `read_from_buffer` of `A9.c` (lines 168-209): run the `A9.c` read loop
with fuel `size + 2`, which dominates every terminating execution (every
`next` iteration moves at least one byte; reaching the untimed wait is a
genuine block, reported as `none` directly). -/
def read_from_buffer_A9 (C : Nat) (kr : Bool) (buf : CircularBuffer)
    (dst : List Nat) (size : Nat) : Option (CircularBuffer × List Nat × Nat) :=
  read_loop_A9 C kr size (size + 2) buf dst 0

/-- The bytes currently buffered, oldest first: `size` bytes starting at
`read_pos`, wrapping modulo the capacity. -/
def contents (C : Nat) (buf : CircularBuffer) : List Nat :=
  (List.range buf.size).map (fun i => buf.data.getD ((buf.read_pos + i) % C) 0)

/-- The ring-buffer representation invariant: the backing array has length
`C`, the read position is in range, at most `C` bytes are buffered, and the
write position is the read position advanced by `size`, modulo `C`. -/
def BufInv (C : Nat) (buf : CircularBuffer) : Prop :=
  buf.data.length = C ∧ buf.read_pos < C ∧ buf.size ≤ C ∧
    buf.write_pos = (buf.read_pos + buf.size) % C

instance (C : Nat) (buf : CircularBuffer) : Decidable (BufInv C buf) := by
  unfold BufInv; exact inferInstance

/-- One producer/consumer call in an interleaving: a `write_to_buffer` of
the given bytes or a `read_from_buffer` of the given byte count. -/
inductive Op where
  | write (bytes : List Nat) : Op
  | read (n : Nat) : Op
deriving DecidableEq

/-- Run an interleaved sequence of calls in which no call has to block: a
write must find enough free space and a read enough buffered data (otherwise
the run is rejected with `none`).  Returns the final buffer, the
concatenation of all bytes supplied to writes, and the concatenation of all
bytes delivered by reads.  Reads are issued while `Playing` with a scratch
destination of the requested length, as the consumer thread does. -/
def runOps (C : Nat) : List Op → CircularBuffer → Option (CircularBuffer × List Nat × List Nat)
  | [], buf => some (buf, [], [])
  | Op.write bytes :: rest, buf =>
    if bytes.length ≤ C - buf.size then
      match write_to_buffer C true buf bytes with
      | some (buf', _) =>
        match runOps C rest buf' with
        | some (b, W, R) => some (b, bytes ++ W, R)
        | none => none
      | none => none
    else none
  | Op.read n :: rest, buf =>
    if n ≤ buf.size then
      match read_from_buffer C true true buf (List.replicate n 0) n with
      | some (buf', out, _) =>
        match runOps C rest buf' with
        | some (b, W, R) => some (b, W, out ++ R)
        | none => none
      | none => none
    else none

/-- Buffer states reachable from `init_circular_buffer` by completed
`write_to_buffer` / `read_from_buffer` calls, under any values of the
volatile flags. -/
inductive Reachable (C : Nat) : CircularBuffer → Prop where
  | init : Reachable C (init_circular_buffer C)
  | write {buf buf' : CircularBuffer} {kr : Bool} {data : List Nat} {n : Nat} :
      Reachable C buf → write_to_buffer C kr buf data = some (buf', n) →
      Reachable C buf'
  | read {buf buf' : CircularBuffer} {kr playing : Bool} {dst dst' : List Nat}
      {size n : Nat} :
      Reachable C buf →
      read_from_buffer C kr playing buf dst size = some (buf', dst', n) →
      Reachable C buf'

/-- The global audio state of `part_005` touched by `play_audio` /
`stop_audio`: the buffer and the two volatile flags. -/
structure AudioState where
  audio_buffer : CircularBuffer
  is_audio_playing : Bool
  keep_running : Bool
deriving DecidableEq

/-- `play_audio` (`part_005` lines 710-712): sets `is_audio_playing = 1`. -/
def play_audio (s : AudioState) : AudioState :=
  { s with is_audio_playing := true }

/-- `stop_audio` (`part_005` lines 715-717): sets `is_audio_playing = 0`. -/
def stop_audio (s : AudioState) : AudioState :=
  { s with is_audio_playing := false }

/-- The message `CircularBuffer` struct of `src/unnamed/part_006` (lines
62-68): a malloc'd `Message` array with `int` size, positions and count.
Messages are abstracted to naturals. -/
structure MsgBuffer where
  buffer : List Nat
  size : Int
  read_pos : Int
  write_pos : Int
  count : Int
deriving DecidableEq

/-- `create_circular_buffer` (`part_006` lines 137-153): two `malloc`s (their
success passed in as `m1`, `m2` since allocation is environmental), a `NULL`
return on allocation failure, and field initialisation.  The function
performs no validation of `size`. -/
def create_circular_buffer (size : Int) (m1 m2 : Bool) : Option MsgBuffer :=
  if m1 = false then none
  else if m2 = false then none
  else some { buffer := List.replicate size.toNat 0, size := size,
              read_pos := 0, write_pos := 0, count := 0 }

/-- `write_message` (`part_006` lines 163-192): blocks (`none`) while
`count == size`; otherwise stores the message, advances `write_pos` modulo
`size`, increments `count` and returns `TRUE`.  It has no error return for a
full buffer. -/
def write_message (buf : MsgBuffer) (msg : Nat) : Option (MsgBuffer × Bool) :=
  if buf.count = buf.size then
    none
  else
    some ({ buf with
              buffer := memcpyList buf.buffer buf.write_pos.toNat [msg]
              write_pos := (buf.write_pos + 1) % buf.size
              count := buf.count + 1 },
          true)

/-- `read_message` (`part_006` lines 195-224): blocks (`none`) while
`count == 0`; otherwise loads the message, advances `read_pos` modulo
`size`, decrements `count` and returns `TRUE`.  It has no error return for
an empty buffer. -/
def read_message (buf : MsgBuffer) : Option (MsgBuffer × Nat × Bool) :=
  if buf.count = 0 then
    none
  else
    some ({ buf with
              read_pos := (buf.read_pos + 1) % buf.size
              count := buf.count - 1 },
          buf.buffer.getD buf.read_pos.toNat 0,
          true)

/-! ### Byte-level lemmas about `memcpyList` -/

theorem memcpyList_length (dst src : List Nat) (pos : Nat)
    (h : pos + src.length ≤ dst.length) :
    (memcpyList dst pos src).length = dst.length := by
  unfold memcpyList
  simp [List.length_take, List.length_drop]
  omega

theorem memcpyList_getD (dst src : List Nat) (pos : Nat)
    (h : pos + src.length ≤ dst.length) (i : Nat) :
    (memcpyList dst pos src).getD i 0 =
      if pos ≤ i ∧ i < pos + src.length then src.getD (i - pos) 0
      else dst.getD i 0 := by
  have hpos : pos ≤ dst.length := le_trans (Nat.le_add_right _ _) h
  have htake : (dst.take pos).length = pos := by
    simp [List.length_take]; omega
  have hleft : (dst.take pos ++ src).length = pos + src.length := by
    simp [List.length_append, htake]
  unfold memcpyList
  by_cases h2 : i < pos + src.length
  · rw [List.getD_append _ _ _ _ (by rw [hleft]; exact h2)]
    by_cases h1 : i < pos
    · rw [List.getD_append _ _ _ _ (by rw [htake]; exact h1), if_neg (by omega)]
      rw [List.getD_eq_getElem?_getD, List.getD_eq_getElem?_getD,
          List.getElem?_take, if_pos h1]
    · rw [List.getD_append_right _ _ _ _ (by rw [htake]; omega), htake,
          if_pos ⟨by omega, h2⟩]
  · rw [List.getD_append_right _ _ _ _ (by rw [hleft]; omega), hleft,
        if_neg (by omega)]
    rw [List.getD_eq_getElem?_getD, List.getD_eq_getElem?_getD,
        List.getElem?_drop]
    have h3 : pos + src.length + (i - (pos + src.length)) = i := by omega
    rw [h3]

theorem getD_replicate_zero (n i : Nat) : (List.replicate n 0).getD i 0 = 0 := by
  rw [List.getD_eq_getElem?_getD]
  by_cases h : i < n
  · rw [List.getElem?_eq_getElem (by simpa using h)]
    simp
  · rw [List.getElem?_eq_none (by simpa using not_lt.mp h)]
    rfl

/-! ### Modular-index lemmas -/

theorem mod_index_eq_of_mod_eq {C r i j : Nat} (hi : i < C) (hj : j < C)
    (h : (r + i) % C = (r + j) % C) : i = j := by
  have h1 : Nat.ModEq C (r + i) (r + j) := h
  have h2 : Nat.ModEq C i j := Nat.ModEq.add_left_cancel (Nat.ModEq.refl r) h1
  have h3 : i % C = j % C := h2
  rwa [Nat.mod_eq_of_lt hi, Nat.mod_eq_of_lt hj] at h3

theorem mod_two_cases {w j C : Nat} (hw : w < C) (hj : j ≤ C) :
    (w + j) % C = if w + j < C then w + j else w + j - C := by
  by_cases h : w + j < C
  · rw [if_pos h, Nat.mod_eq_of_lt h]
  · rw [if_neg h]
    have h2 : w + j - C < C := by omega
    have h3 : w + j = (w + j - C) + C := by omega
    calc (w + j) % C = ((w + j - C) + C) % C := by rw [← h3]
      _ = (w + j - C) % C := Nat.add_mod_right _ _
      _ = w + j - C := Nat.mod_eq_of_lt h2

theorem getD_take_lt (l : List Nat) (n j : Nat) (h : j < n) :
    (l.take n).getD j 0 = l.getD j 0 := by
  rw [List.getD_eq_getElem?_getD, List.getD_eq_getElem?_getD,
      List.getElem?_take, if_pos h]

theorem getD_drop_eq (l : List Nat) (n k : Nat) :
    (l.drop n).getD k 0 = l.getD (n + k) 0 := by
  rw [List.getD_eq_getElem?_getD, List.getD_eq_getElem?_getD, List.getElem?_drop]

theorem map_getD_range (l : List Nat) :
    (List.range l.length).map (fun j => l.getD j 0) = l := by
  apply List.ext_getElem
  · simp
  · intro i h1 h2
    simp only [List.getElem_map, List.getElem_range]
    rw [List.getD_eq_getElem?_getD, List.getElem?_eq_getElem h2]
    rfl

/-! ### `writeChunk`: field and pointwise characterisation -/

theorem writeChunk_read_pos (C : Nat) (buf : CircularBuffer) (chunk : List Nat) :
    (writeChunk C buf chunk).read_pos = buf.read_pos := by
  unfold writeChunk; dsimp only; split <;> rfl

theorem writeChunk_size (C : Nat) (buf : CircularBuffer) (chunk : List Nat) :
    (writeChunk C buf chunk).size = buf.size + chunk.length := by
  unfold writeChunk; dsimp only; split <;> rfl

theorem writeChunk_write_pos (C : Nat) (buf : CircularBuffer) (chunk : List Nat)
    (hw : buf.write_pos < C) (hlen : chunk.length ≤ C) :
    (writeChunk C buf chunk).write_pos = (buf.write_pos + chunk.length) % C := by
  unfold writeChunk; dsimp only; split
  · rfl
  · rename_i hnot
    show chunk.length - (C - buf.write_pos) = (buf.write_pos + chunk.length) % C
    rw [mod_two_cases hw hlen, if_neg (by omega)]
    omega

theorem writeChunk_data_length (C : Nat) (buf : CircularBuffer) (chunk : List Nat)
    (hdata : buf.data.length = C) (hw : buf.write_pos < C) (hlen : chunk.length ≤ C) :
    (writeChunk C buf chunk).data.length = C := by
  unfold writeChunk; dsimp only; split
  · rename_i hfit
    rw [memcpyList_length _ _ _ (by omega)]
    exact hdata
  · rename_i hnot
    have hinner : (memcpyList buf.data buf.write_pos
        (chunk.take (C - buf.write_pos))).length = C := by
      rw [memcpyList_length _ _ _ (by simp [List.length_take]; omega)]
      exact hdata
    rw [memcpyList_length _ _ _ (by simp [List.length_drop]; omega)]
    exact hinner

theorem writeChunk_getD_written (C : Nat) (buf : CircularBuffer) (chunk : List Nat)
    (hdata : buf.data.length = C) (hw : buf.write_pos < C) (hlen : chunk.length ≤ C)
    (j : Nat) (hj : j < chunk.length) :
    (writeChunk C buf chunk).data.getD ((buf.write_pos + j) % C) 0 =
      chunk.getD j 0 := by
  unfold writeChunk; dsimp only; split
  · rename_i hfit
    have hidx : (buf.write_pos + j) % C = buf.write_pos + j :=
      Nat.mod_eq_of_lt (by omega)
    rw [hidx, memcpyList_getD _ _ _ (by omega), if_pos ⟨by omega, by omega⟩,
        Nat.add_sub_cancel_left]
  · rename_i hnot
    have hinnerlen : (memcpyList buf.data buf.write_pos
        (chunk.take (C - buf.write_pos))).length = C := by
      rw [memcpyList_length _ _ _ (by simp [List.length_take]; omega)]
      exact hdata
    have hfcw : chunk.length - (C - buf.write_pos) ≤ buf.write_pos := by omega
    by_cases hcase : j < C - buf.write_pos
    · have hidx : (buf.write_pos + j) % C = buf.write_pos + j :=
        Nat.mod_eq_of_lt (by omega)
      rw [hidx, memcpyList_getD _ _ _ (by simp [List.length_drop]; omega),
          if_neg (by simp [List.length_drop]; omega),
          memcpyList_getD _ _ _ (by simp [List.length_take]; omega),
          if_pos ⟨by omega, by simp [List.length_take]; omega⟩,
          Nat.add_sub_cancel_left, getD_take_lt _ _ _ hcase]
    · have hidx : (buf.write_pos + j) % C = j - (C - buf.write_pos) := by
        rw [mod_two_cases hw (show j ≤ C by omega), if_neg (by omega)]
        omega
      rw [hidx, memcpyList_getD _ _ _ (by simp [List.length_drop]; omega),
          if_pos ⟨Nat.zero_le _, by simp [List.length_drop]; omega⟩,
          Nat.sub_zero, getD_drop_eq]
      congr 1
      omega

theorem writeChunk_getD_untouched (C : Nat) (buf : CircularBuffer) (chunk : List Nat)
    (hdata : buf.data.length = C) (hw : buf.write_pos < C) (hlen : chunk.length ≤ C)
    (p : Nat) (hp : p < C)
    (hout : ∀ j, j < chunk.length → p ≠ (buf.write_pos + j) % C) :
    (writeChunk C buf chunk).data.getD p 0 = buf.data.getD p 0 := by
  unfold writeChunk; dsimp only; split
  · rename_i hfit
    rw [memcpyList_getD _ _ _ (by omega)]
    by_cases hin : buf.write_pos ≤ p ∧ p < buf.write_pos + chunk.length
    · exfalso
      refine hout (p - buf.write_pos) (by omega) ?_
      rw [Nat.mod_eq_of_lt (by omega)]
      omega
    · rw [if_neg hin]
  · rename_i hnot
    have hinnerlen : (memcpyList buf.data buf.write_pos
        (chunk.take (C - buf.write_pos))).length = C := by
      rw [memcpyList_length _ _ _ (by simp [List.length_take]; omega)]
      exact hdata
    rw [memcpyList_getD _ _ _ (by simp [List.length_drop]; omega)]
    by_cases hin1 : p < chunk.length - (C - buf.write_pos)
    · exfalso
      refine hout (p + (C - buf.write_pos)) (by omega) ?_
      rw [mod_two_cases hw (show p + (C - buf.write_pos) ≤ C by omega),
          if_neg (by omega)]
      omega
    · rw [if_neg (by simp [List.length_drop]; omega)]
      rw [memcpyList_getD _ _ _ (by simp [List.length_take]; omega)]
      by_cases hin2 : buf.write_pos ≤ p ∧
          p < buf.write_pos + (chunk.take (C - buf.write_pos)).length
      · exfalso
        have hlt : (chunk.take (C - buf.write_pos)).length = C - buf.write_pos := by
          simp [List.length_take]; omega
        refine hout (p - buf.write_pos) (by omega) ?_
        rw [Nat.mod_eq_of_lt (by omega)]
        omega
      · rw [if_neg hin2]

theorem list_eq_by_getD (a b : List Nat) (hlen : a.length = b.length)
    (h : ∀ i, i < a.length → a.getD i 0 = b.getD i 0) : a = b := by
  apply List.ext_getElem hlen
  intro i h1 h2
  have h3 := h i h1
  rwa [List.getD_eq_getElem a 0 h1, List.getD_eq_getElem b 0 h2] at h3

/-! ### `readChunk`: field and pointwise characterisation -/

theorem readChunk_data (C : Nat) (buf : CircularBuffer) (n : Nat) :
    (readChunk C buf n).1.data = buf.data := by
  unfold readChunk; dsimp only; split <;> rfl

theorem readChunk_write_pos (C : Nat) (buf : CircularBuffer) (n : Nat) :
    (readChunk C buf n).1.write_pos = buf.write_pos := by
  unfold readChunk; dsimp only; split <;> rfl

theorem readChunk_size (C : Nat) (buf : CircularBuffer) (n : Nat) :
    (readChunk C buf n).1.size = buf.size - n := by
  unfold readChunk; dsimp only; split <;> rfl

theorem readChunk_read_pos (C : Nat) (buf : CircularBuffer) (n : Nat)
    (hr : buf.read_pos < C) (hn : n ≤ C) :
    (readChunk C buf n).1.read_pos = (buf.read_pos + n) % C := by
  unfold readChunk; dsimp only; split
  · rfl
  · rename_i hnot
    show n - (C - buf.read_pos) = (buf.read_pos + n) % C
    rw [mod_two_cases hr hn, if_neg (by omega)]
    omega

theorem getD_map_range (f : Nat → Nat) (n i : Nat) (h : i < n) :
    ((List.range n).map f).getD i 0 = f i := by
  rw [List.getD_eq_getElem _ 0 (by simp [List.length_map, List.length_range]; omega)]
  simp [List.getElem_map, List.getElem_range]

theorem readChunk_out (C : Nat) (buf : CircularBuffer) (n : Nat)
    (hdata : buf.data.length = C) (hr : buf.read_pos < C) (hn : n ≤ C) :
    (readChunk C buf n).2 =
      (List.range n).map (fun i => buf.data.getD ((buf.read_pos + i) % C) 0) := by
  unfold readChunk; dsimp only; split
  · rename_i hfit
    show (buf.data.drop buf.read_pos).take n = _
    apply list_eq_by_getD
    · simp [List.length_take, List.length_drop, List.length_map, List.length_range]
      omega
    · intro i hi
      have hi' : i < n := by
        simp [List.length_take, List.length_drop] at hi
        omega
      rw [getD_map_range _ _ _ hi', getD_take_lt _ _ _ hi', getD_drop_eq,
          Nat.mod_eq_of_lt (by omega)]
  · rename_i hnot
    show (buf.data.drop buf.read_pos).take (C - buf.read_pos) ++
        buf.data.take (n - (C - buf.read_pos)) = _
    apply list_eq_by_getD
    · simp [List.length_append, List.length_take, List.length_drop,
        List.length_map, List.length_range]
      omega
    · intro i hi
      have hlen1 : ((buf.data.drop buf.read_pos).take (C - buf.read_pos)).length =
          C - buf.read_pos := by
        simp [List.length_take, List.length_drop]
        omega
      have hi' : i < n := by
        simp [List.length_append, List.length_take, List.length_drop] at hi
        omega
      rw [getD_map_range _ _ _ hi']
      by_cases hc : i < C - buf.read_pos
      · rw [List.getD_append _ _ _ _ (by rw [hlen1]; exact hc),
            getD_take_lt _ _ _ hc, getD_drop_eq, Nat.mod_eq_of_lt (by omega)]
      · rw [List.getD_append_right _ _ _ _ (by rw [hlen1]; omega), hlen1,
            getD_take_lt _ _ _ (by omega)]
        rw [mod_two_cases hr (show i ≤ C by omega), if_neg (by omega)]
        congr 1
        omega

/-! ### `contents`: the abstract FIFO view -/

theorem contents_length (C : Nat) (buf : CircularBuffer) :
    (contents C buf).length = buf.size := by
  unfold contents
  simp [List.length_map, List.length_range]

theorem contents_writeChunk (C : Nat) (buf : CircularBuffer) (chunk : List Nat)
    (hdata : buf.data.length = C) (hr : buf.read_pos < C) (hsz : buf.size ≤ C)
    (hwp : buf.write_pos = (buf.read_pos + buf.size) % C)
    (hfit : chunk.length + buf.size ≤ C) :
    contents C (writeChunk C buf chunk) = contents C buf ++ chunk := by
  have hC : 0 < C := Nat.pos_of_ne_zero (by omega)
  have hw : buf.write_pos < C := by rw [hwp]; exact Nat.mod_lt _ hC
  have hlen : chunk.length ≤ C := by omega
  have hmod : ∀ j : Nat, (buf.write_pos + j) % C = (buf.read_pos + (buf.size + j)) % C := by
    intro j
    rw [hwp, Nat.mod_add_mod, Nat.add_assoc]
  unfold contents
  rw [writeChunk_size, writeChunk_read_pos, List.range_add, List.map_append]
  congr 1
  · apply List.map_congr_left
    intro i hi
    have hi' : i < buf.size := List.mem_range.mp hi
    apply writeChunk_getD_untouched C buf chunk hdata hw hlen _
      (Nat.mod_lt _ hC)
    intro j hj hcontra
    rw [hmod j] at hcontra
    have := mod_index_eq_of_mod_eq (r := buf.read_pos) (C := C)
      (by omega : i < C) (by omega : buf.size + j < C) hcontra
    omega
  · rw [List.map_map]
    have h1 : ∀ j ∈ List.range chunk.length,
        ((fun i => (writeChunk C buf chunk).data.getD ((buf.read_pos + i) % C) 0) ∘
          (fun x => buf.size + x)) j = chunk.getD j 0 := by
      intro j hj
      have hj' : j < chunk.length := List.mem_range.mp hj
      show (writeChunk C buf chunk).data.getD ((buf.read_pos + (buf.size + j)) % C) 0 =
        chunk.getD j 0
      rw [← hmod j]
      exact writeChunk_getD_written C buf chunk hdata hw hlen j hj'
    rw [List.map_congr_left h1]
    exact map_getD_range chunk

theorem readChunk_out_take (C : Nat) (buf : CircularBuffer) (n : Nat)
    (hdata : buf.data.length = C) (hr : buf.read_pos < C) (hsz : buf.size ≤ C)
    (hn : n ≤ buf.size) :
    (readChunk C buf n).2 = (contents C buf).take n := by
  rw [readChunk_out C buf n hdata hr (by omega)]
  unfold contents
  rw [← List.map_take, List.take_range, min_eq_left hn]

theorem contents_readChunk (C : Nat) (buf : CircularBuffer) (n : Nat)
    (hdata : buf.data.length = C) (hr : buf.read_pos < C) (hsz : buf.size ≤ C)
    (hn : n ≤ buf.size) :
    contents C (readChunk C buf n).1 = (contents C buf).drop n := by
  have hC : 0 < C := Nat.pos_of_ne_zero (by omega)
  unfold contents
  rw [readChunk_size, readChunk_read_pos C buf n hr (by omega), readChunk_data]
  have h1 : List.range buf.size =
      List.range n ++ (List.range (buf.size - n)).map (n + ·) := by
    rw [← List.range_add]
    congr 1
    omega
  have h2 : ((List.range n).map
      (fun i => buf.data.getD ((buf.read_pos + i) % C) 0)).length = n := by
    simp [List.length_map, List.length_range]
  rw [h1, List.map_append, List.drop_left' h2, List.map_map]
  apply List.map_congr_left
  intro i hi
  show buf.data.getD (((buf.read_pos + n) % C + i) % C) 0 =
    buf.data.getD ((buf.read_pos + (n + i)) % C) 0
  rw [Nat.mod_add_mod, Nat.add_assoc]

theorem memcpyList_nil (dst : List Nat) (pos : Nat) : memcpyList dst pos [] = dst := by
  unfold memcpyList
  simp [List.take_append_drop]

theorem memsetList_zero_run (dst : List Nat) (len : Nat) :
    memsetList dst 0 len = List.replicate len 0 ++ dst.drop len := by
  unfold memsetList memcpyList
  simp [List.length_replicate]

/-! ### Invariant preservation -/

theorem bufInv_init (C : Nat) (hC : 0 < C) : BufInv C (init_circular_buffer C) := by
  refine ⟨by simp [init_circular_buffer], hC, Nat.zero_le C, ?_⟩
  simp [init_circular_buffer]

theorem bufInv_writeChunk (C : Nat) (buf : CircularBuffer) (chunk : List Nat)
    (hInv : BufInv C buf) (hfit : chunk.length + buf.size ≤ C) :
    BufInv C (writeChunk C buf chunk) := by
  obtain ⟨hdata, hr, hsz, hwp⟩ := hInv
  have hC : 0 < C := by omega
  have hw : buf.write_pos < C := hwp ▸ Nat.mod_lt _ hC
  refine ⟨?_, ?_, ?_, ?_⟩
  · exact writeChunk_data_length C buf chunk hdata hw (by omega)
  · rw [writeChunk_read_pos]; exact hr
  · rw [writeChunk_size]; omega
  · rw [writeChunk_write_pos C buf chunk hw (by omega), writeChunk_read_pos,
        writeChunk_size, hwp, Nat.mod_add_mod, Nat.add_assoc]

theorem bufInv_readChunk (C : Nat) (buf : CircularBuffer) (n : Nat)
    (hInv : BufInv C buf) (hn : n ≤ buf.size) :
    BufInv C (readChunk C buf n).1 := by
  obtain ⟨hdata, hr, hsz, hwp⟩ := hInv
  have hC : 0 < C := by omega
  refine ⟨?_, ?_, ?_, ?_⟩
  · rw [readChunk_data]; exact hdata
  · rw [readChunk_read_pos C buf n hr (by omega)]; exact Nat.mod_lt _ hC
  · rw [readChunk_size]; omega
  · rw [readChunk_write_pos, readChunk_size,
        readChunk_read_pos C buf n hr (by omega), hwp, Nat.mod_add_mod]
    congr 1
    omega

/-! ### Evaluation lemmas for the write loop -/

theorem write_loop_done (C : Nat) (kr : Bool) (fuel : Nat) (buf : CircularBuffer)
    (rest : List Nat) (written : Nat) (h : rest.length = 0 ∨ kr = false) :
    write_loop C kr (fuel + 1) buf rest written = some (buf, written) := by
  rw [write_loop, if_pos h]

theorem write_loop_blocked (C : Nat) (kr : Bool) (fuel : Nat) (buf : CircularBuffer)
    (rest : List Nat) (written : Nat) (h1 : rest.length ≠ 0) (h2 : kr = true)
    (h3 : C - buf.size = 0) :
    write_loop C kr (fuel + 1) buf rest written = none := by
  rw [write_loop, if_neg (by simp [h1, h2])]
  dsimp only
  rw [if_pos h3]

theorem write_loop_step (C : Nat) (kr : Bool) (fuel : Nat) (buf : CircularBuffer)
    (rest : List Nat) (written : Nat) (h1 : rest.length ≠ 0) (h2 : kr = true)
    (h3 : C - buf.size ≠ 0) :
    write_loop C kr (fuel + 1) buf rest written =
      write_loop C kr fuel
        (writeChunk C buf (rest.take (min rest.length (C - buf.size))))
        (rest.drop (min rest.length (C - buf.size)))
        (written + min rest.length (C - buf.size)) := by
  rw [write_loop, if_neg (by simp [h1, h2])]
  dsimp only
  rw [if_neg h3]

theorem write_loop_inv (C : Nat) (kr : Bool) : ∀ (fuel : Nat) (buf : CircularBuffer)
    (rest : List Nat) (written : Nat) (buf' : CircularBuffer) (n : Nat),
    BufInv C buf → write_loop C kr fuel buf rest written = some (buf', n) →
    BufInv C buf'
  | 0, buf, rest, written, buf', n => by
    intro _ h
    simp [write_loop] at h
  | fuel + 1, buf, rest, written, buf', n => by
    intro hInv h
    by_cases hdone : rest.length = 0 ∨ kr = false
    · rw [write_loop_done _ _ _ _ _ _ hdone] at h
      obtain ⟨rfl, rfl⟩ : buf = buf' ∧ written = n := by
        constructor <;> injection h with h' <;> simp_all
      exact hInv
    · push_neg at hdone
      obtain ⟨h1, h2⟩ := hdone
      have h2' : kr = true := by
        cases kr
        · exact absurd rfl h2
        · rfl
      by_cases h3 : C - buf.size = 0
      · rw [write_loop_blocked _ _ _ _ _ _ h1 h2' h3] at h
        exact absurd h (by simp)
      · rw [write_loop_step _ _ _ _ _ _ h1 h2' h3] at h
        have hfit : (rest.take (min rest.length (C - buf.size))).length + buf.size ≤ C := by
          have hsz : buf.size ≤ C := hInv.2.2.1
          simp [List.length_take]
          omega
        exact write_loop_inv C kr fuel _ _ _ buf' n
          (bufInv_writeChunk C buf _ hInv hfit) h

theorem write_loop_count (C : Nat) : ∀ (fuel : Nat) (buf : CircularBuffer)
    (rest : List Nat) (written : Nat) (buf' : CircularBuffer) (n : Nat),
    write_loop C true fuel buf rest written = some (buf', n) →
    n = written + rest.length
  | 0, buf, rest, written, buf', n => by
    intro h
    simp [write_loop] at h
  | fuel + 1, buf, rest, written, buf', n => by
    intro h
    by_cases h1 : rest.length = 0
    · rw [write_loop_done _ _ _ _ _ _ (Or.inl h1)] at h
      have : written = n := by injection h with h'; simp_all
      omega
    · by_cases h3 : C - buf.size = 0
      · rw [write_loop_blocked _ _ _ _ _ _ h1 rfl h3] at h
        exact absurd h (by simp)
      · rw [write_loop_step _ _ _ _ _ _ h1 rfl h3] at h
        have := write_loop_count C fuel _ _ _ buf' n h
        simp [List.length_drop] at this
        have hmin : min rest.length (C - buf.size) ≤ rest.length :=
          Nat.min_le_left _ _
        omega

theorem write_to_buffer_fits (C : Nat) (buf : CircularBuffer) (data : List Nat)
    (hInv : BufInv C buf) (hfit : data.length + buf.size ≤ C) :
    ∃ buf', write_to_buffer C true buf data = some (buf', data.length) ∧
      BufInv C buf' ∧ contents C buf' = contents C buf ++ data := by
  by_cases hnil : data.length = 0
  · refine ⟨buf, ?_, hInv, ?_⟩
    · unfold write_to_buffer
      rw [hnil, write_loop_done _ _ _ _ _ _ (Or.inl hnil)]
    · have h : data = [] := List.eq_nil_of_length_eq_zero hnil
      rw [h, List.append_nil]
  · refine ⟨writeChunk C buf data, ?_, bufInv_writeChunk C buf data hInv hfit,
      contents_writeChunk C buf data hInv.1 hInv.2.1 hInv.2.2.1 hInv.2.2.2 hfit⟩
    unfold write_to_buffer
    have hsz : buf.size ≤ C := hInv.2.2.1
    rw [write_loop_step C true data.length buf data 0 hnil rfl (by omega)]
    have hmin : min data.length (C - buf.size) = data.length := by omega
    rw [hmin, List.take_length, List.drop_length]
    obtain ⟨m, hm⟩ : ∃ m, data.length = m + 1 := ⟨data.length - 1, by omega⟩
    rw [hm, write_loop_done C true m (writeChunk C buf data) [] (0 + (m + 1))
          (Or.inl rfl)]
    rw [Nat.zero_add]

/-! ### Evaluation lemmas for the read loop -/

theorem read_loop_succ (C : Nat) (kr playing : Bool) (size fuel : Nat)
    (buf : CircularBuffer) (dst : List Nat) (br : Nat) :
    read_loop C kr playing size (fuel + 1) buf dst br =
      match read_step C kr kr playing size buf dst br with
      | ReadStep.done b d r => some (b, d, r)
      | ReadStep.next b d br' => read_loop C kr playing size fuel b d br' := by
  rw [read_loop]

theorem read_step_guard_done (C : Nat) (kr1 kr2 playing : Bool) (size : Nat)
    (buf : CircularBuffer) (dst : List Nat) (br : Nat)
    (h : ¬(br < size ∧ kr1 = true)) :
    read_step C kr1 kr2 playing size buf dst br = ReadStep.done buf dst br := by
  unfold read_step
  rw [if_neg h]

theorem read_step_empty_done (C : Nat) (kr1 kr2 playing : Bool) (size : Nat)
    (buf : CircularBuffer) (dst : List Nat) (br : Nat)
    (h1 : br < size) (hkr1 : kr1 = true) (he : buf.size = 0)
    (h2 : kr2 = false ∨ playing = false) :
    read_step C kr1 kr2 playing size buf dst br =
      ReadStep.done buf (memsetList dst br (size - br)) size := by
  unfold read_step
  rw [if_pos ⟨h1, hkr1⟩, if_pos he, if_pos h2]

theorem read_step_timeout (C : Nat) (kr1 kr2 playing : Bool) (size : Nat)
    (buf : CircularBuffer) (dst : List Nat) (br : Nat)
    (h1 : br < size) (hkr1 : kr1 = true) (he : buf.size = 0)
    (hkr2 : kr2 = true) (hp : playing = true) (hs : 0 < size / 10) :
    read_step C kr1 kr2 playing size buf dst br =
      ReadStep.next buf (memsetList dst br (size / 10)) (br + size / 10) := by
  unfold read_step
  rw [if_pos ⟨h1, hkr1⟩, if_pos he, if_neg (by simp [hkr2, hp])]
  dsimp only
  rw [if_pos hs]

theorem read_step_starved_stuck (C : Nat) (kr1 kr2 playing : Bool) (size : Nat)
    (buf : CircularBuffer) (dst : List Nat) (br : Nat)
    (h1 : br < size) (hkr1 : kr1 = true) (he : buf.size = 0)
    (hkr2 : kr2 = true) (hp : playing = true) (hs : size / 10 = 0) :
    read_step C kr1 kr2 playing size buf dst br = ReadStep.next buf dst br := by
  unfold read_step
  rw [if_pos ⟨h1, hkr1⟩, if_pos he, if_neg (by simp [hkr2, hp])]
  dsimp only
  rw [if_neg (by omega)]

theorem read_step_data (C : Nat) (kr1 kr2 playing : Bool) (size : Nat)
    (buf : CircularBuffer) (dst : List Nat) (br : Nat)
    (h1 : br < size) (hkr1 : kr1 = true) (hne : ¬buf.size = 0) :
    read_step C kr1 kr2 playing size buf dst br =
      ReadStep.next (readChunk C buf (min (size - br) buf.size)).1
        (memcpyList dst br (readChunk C buf (min (size - br) buf.size)).2)
        (br + min (size - br) buf.size) := by
  unfold read_step
  rw [if_pos ⟨h1, hkr1⟩, if_neg hne]

theorem read_step_bufInv (C : Nat) (kr1 kr2 playing : Bool) (size : Nat)
    (buf : CircularBuffer) (dst : List Nat) (br : Nat) (hInv : BufInv C buf) :
    ∀ res, read_step C kr1 kr2 playing size buf dst br = res →
      (match res with
       | ReadStep.done b _ _ => BufInv C b
       | ReadStep.next b _ _ => BufInv C b) := by
  intro res hres
  by_cases hg : br < size ∧ kr1 = true
  · by_cases he : buf.size = 0
    · by_cases h2 : kr2 = false ∨ playing = false
      · rw [read_step_empty_done C kr1 kr2 playing size buf dst br hg.1 hg.2 he h2] at hres
        rw [← hres]
        exact hInv
      · push_neg at h2
        have hkr2 : kr2 = true := by
          cases kr2
          · exact absurd rfl h2.1
          · rfl
        have hp : playing = true := by
          cases playing
          · exact absurd rfl h2.2
          · rfl
        by_cases hs : 0 < size / 10
        · rw [read_step_timeout C kr1 kr2 playing size buf dst br hg.1 hg.2 he hkr2 hp hs] at hres
          rw [← hres]
          exact hInv
        · rw [read_step_starved_stuck C kr1 kr2 playing size buf dst br hg.1 hg.2 he hkr2 hp
              (by omega)] at hres
          rw [← hres]
          exact hInv
    · rw [read_step_data C kr1 kr2 playing size buf dst br hg.1 hg.2 he] at hres
      rw [← hres]
      exact bufInv_readChunk C buf _ hInv (Nat.min_le_right _ _)
  · rw [read_step_guard_done C kr1 kr2 playing size buf dst br hg] at hres
    rw [← hres]
    exact hInv

theorem read_loop_bufInv (C : Nat) (kr playing : Bool) (size : Nat) :
    ∀ (fuel : Nat) (buf : CircularBuffer) (dst : List Nat) (br : Nat)
      (buf' : CircularBuffer) (dst' : List Nat) (n : Nat),
      BufInv C buf →
      read_loop C kr playing size fuel buf dst br = some (buf', dst', n) →
      BufInv C buf'
  | 0, buf, dst, br, buf', dst', n => by
    intro _ h
    simp [read_loop] at h
  | fuel + 1, buf, dst, br, buf', dst', n => by
    intro hInv h
    rw [read_loop_succ] at h
    cases hres : read_step C kr kr playing size buf dst br with
    | done b d r =>
      rw [hres] at h
      have hb := read_step_bufInv C kr kr playing size buf dst br hInv _ hres
      simp only at hb
      have : b = buf' := by
        simp only at h
        injection h with h'
        exact congrArg (fun p => p.1) h'
      rw [← this]
      exact hb
    | next b d br' =>
      rw [hres] at h
      have hb := read_step_bufInv C kr kr playing size buf dst br hInv _ hres
      simp only at hb
      exact read_loop_bufInv C kr playing size fuel b d br' buf' dst' n hb h

theorem read_from_buffer_fits (C : Nat) (playing : Bool) (buf : CircularBuffer)
    (dst : List Nat) (n : Nat) (hInv : BufInv C buf) (hn : n ≤ buf.size) :
    ∃ buf', read_from_buffer C true playing buf dst n =
        some (buf', memcpyList dst 0 ((contents C buf).take n), n) ∧
      BufInv C buf' ∧ contents C buf' = (contents C buf).drop n := by
  by_cases h0 : n = 0
  · subst h0
    refine ⟨buf, ?_, hInv, by rw [List.drop_zero]⟩
    unfold read_from_buffer
    show read_loop C true playing 0 (1 + 1) buf dst 0 = _
    rw [read_loop_succ, read_step_guard_done _ _ _ _ _ _ _ _ (by simp),
        List.take_zero, memcpyList_nil]
  · have hne : ¬buf.size = 0 := by omega
    refine ⟨(readChunk C buf n).1, ?_,
      bufInv_readChunk C buf n hInv hn,
      contents_readChunk C buf n hInv.1 hInv.2.1 hInv.2.2.1 hn⟩
    unfold read_from_buffer
    show read_loop C true playing n ((n + 1) + 1) buf dst 0 = _
    rw [read_loop_succ,
        read_step_data C true true playing n buf dst 0 (by omega) rfl hne]
    dsimp only
    have hmin : min (n - 0) buf.size = n := by omega
    rw [hmin]
    rw [read_loop_succ, read_step_guard_done _ _ _ _ _ _ _ _ (by simp)]
    dsimp only
    rw [readChunk_out_take C buf n hInv.1 hInv.2.1 hInv.2.2.1 hn, Nat.zero_add]

theorem read_silence (C : Nat) (buf : CircularBuffer) (dst : List Nat) (size : Nat)
    (he : buf.size = 0) (hdst : dst.length = size) :
    read_from_buffer C true false buf dst size =
      some (buf, List.replicate size 0, size) := by
  by_cases h0 : size = 0
  · subst h0
    unfold read_from_buffer
    show read_loop C true false 0 (1 + 1) buf dst 0 = _
    rw [read_loop_succ, read_step_guard_done _ _ _ _ _ _ _ _ (by simp)]
    have hd : dst = [] := List.eq_nil_of_length_eq_zero hdst
    rw [hd]
    rfl
  · unfold read_from_buffer
    show read_loop C true false size ((size + 1) + 1) buf dst 0 = _
    rw [read_loop_succ,
        read_step_empty_done C true true false size buf dst 0 (by omega) rfl he
          (Or.inr rfl),
        Nat.sub_zero, memsetList_zero_run, ← hdst, List.drop_length,
        List.append_nil, hdst]

theorem read_loop_starved (C size : Nat) (hs : 0 < size / 10) (dst0 : List Nat)
    (hdst : dst0.length = size) (buf : CircularBuffer) (he : buf.size = 0) :
    ∀ (fuel br : Nat), size - br < fuel →
      ∃ n, size ≤ n ∧
        read_loop C true true size fuel buf (List.replicate br 0 ++ dst0.drop br) br =
          some (buf, List.replicate n 0, n)
  | 0, br => by
    intro h
    exact absurd h (by omega)
  | fuel + 1, br => by
    intro hfuel
    by_cases hbr : br < size
    · have hmemset : memsetList (List.replicate br 0 ++ dst0.drop br) br (size / 10) =
          List.replicate (br + size / 10) 0 ++ dst0.drop (br + size / 10) := by
        unfold memsetList memcpyList
        rw [List.take_left' (by simp)]
        rw [List.drop_append_eq_append_drop]
        rw [List.drop_eq_nil_of_le (by simp [List.length_replicate])]
        rw [List.length_replicate, List.length_replicate]
        rw [List.drop_drop]
        have harith : br + (br + size / 10 - br) = br + size / 10 := by omega
        rw [harith, List.replicate_add, List.nil_append, List.append_assoc]
      rw [read_loop_succ,
          read_step_timeout C true true true size buf _ br hbr rfl he rfl rfl hs,
          hmemset]
      exact read_loop_starved C size hs dst0 hdst buf he fuel (br + size / 10)
        (by omega)
    · refine ⟨br, by omega, ?_⟩
      rw [read_loop_succ, read_step_guard_done _ _ _ _ _ _ _ _ (by simp [hbr])]
      rw [List.drop_eq_nil_of_le (by omega), List.append_nil]

/-! ### Interleaved call sequences -/

theorem runOps_spec (C : Nat) : ∀ (ops : List Op) (buf buf' : CircularBuffer)
    (W R : List Nat),
    BufInv C buf → runOps C ops buf = some (buf', W, R) →
    BufInv C buf' ∧ R ++ contents C buf' = contents C buf ++ W
  | [], buf, buf', W, R => by
    intro hInv h
    simp only [runOps, Option.some.injEq, Prod.mk.injEq] at h
    obtain ⟨rfl, rfl, rfl⟩ := h
    exact ⟨hInv, by simp⟩
  | Op.write bytes :: rest, buf, buf', W, R => by
    intro hInv h
    unfold runOps at h
    by_cases hg : bytes.length ≤ C - buf.size
    · rw [if_pos hg] at h
      have hfit : bytes.length + buf.size ≤ C := by
        have := hInv.2.2.1
        omega
      obtain ⟨bufw, heq, hinvw, hcontw⟩ := write_to_buffer_fits C buf bytes hInv hfit
      rw [heq] at h
      dsimp only at h
      cases hrun : runOps C rest bufw with
      | none =>
        rw [hrun] at h
        exact absurd h (by simp)
      | some trip =>
        obtain ⟨b2, W2, R2⟩ := trip
        rw [hrun] at h
        simp only [Option.some.injEq, Prod.mk.injEq] at h
        obtain ⟨rfl, rfl, rfl⟩ := h
        obtain ⟨ih1, ih2⟩ := runOps_spec C rest bufw b2 W2 R2 hinvw hrun
        refine ⟨ih1, ?_⟩
        rw [ih2, hcontw, List.append_assoc]
    · rw [if_neg hg] at h
      exact absurd h (by simp)
  | Op.read n :: rest, buf, buf', W, R => by
    intro hInv h
    unfold runOps at h
    by_cases hg : n ≤ buf.size
    · rw [if_pos hg] at h
      obtain ⟨bufr, heq, hinvr, hcontr⟩ :=
        read_from_buffer_fits C true buf (List.replicate n 0) n hInv hg
      rw [heq] at h
      dsimp only at h
      cases hrun : runOps C rest bufr with
      | none =>
        rw [hrun] at h
        exact absurd h (by simp)
      | some trip =>
        obtain ⟨b2, W2, R2⟩ := trip
        rw [hrun] at h
        simp only [Option.some.injEq, Prod.mk.injEq] at h
        obtain ⟨rfl, rfl, rfl⟩ := h
        obtain ⟨ih1, ih2⟩ := runOps_spec C rest bufr b2 W2 R2 hinvr hrun
        have hout : memcpyList (List.replicate n 0) 0 ((contents C buf).take n) =
            (contents C buf).take n := by
          have hlen : ((contents C buf).take n).length = n := by
            rw [List.length_take, contents_length]
            omega
          unfold memcpyList
          rw [List.take_zero, List.nil_append, Nat.zero_add, hlen,
              List.drop_eq_nil_of_le (by simp [List.length_replicate]),
              List.append_nil]
        refine ⟨ih1, ?_⟩
        rw [hout, List.append_assoc, ih2, hcontr, ← List.append_assoc,
            List.take_append_drop]
    · rw [if_neg hg] at h
      exact absurd h (by simp)

/-- Every state reachable by completed calls from the initialized buffer
satisfies the representation invariant. -/
theorem reachable_bufInv (C : Nat) (hC : 0 < C) (buf : CircularBuffer)
    (h : Reachable C buf) : BufInv C buf := by
  induction h with
  | init => exact bufInv_init C hC
  | write hr heq ih =>
    exact write_loop_inv C _ _ _ _ _ _ _ ih heq
  | read hr heq ih =>
    exact read_loop_bufInv C _ _ _ _ _ _ _ _ _ _ ih heq

/-! ### Claim theorems -/

/-- Claim C1: FIFO correctness of the ring buffer.  Starting from an
initialized empty buffer, for every interleaved sequence of `write_to_buffer`
and `read_from_buffer` calls in which no call has to block (`runOps` rejects
any other sequence), the concatenation `R` of the bytes delivered by the
reads is a prefix of the concatenation `W` of the bytes supplied to the
writes — exact order, no loss, no duplication — including when a transfer
wraps past the end of the backing array. -/
theorem fifo_correctness (C : Nat) (ops : List Op) (buf' : CircularBuffer)
    (W R : List Nat) (hC : 0 < C)
    (h : runOps C ops (init_circular_buffer C) = some (buf', W, R)) :
    ∃ t, R ++ t = W := by
  obtain ⟨_, heq⟩ := runOps_spec C ops _ buf' W R (bufInv_init C hC) h
  refine ⟨contents C buf', ?_⟩
  have hempty : contents C (init_circular_buffer C) = [] := by
    unfold contents init_circular_buffer
    simp
  rw [heq, hempty, List.nil_append]

/-- Witness for C1, with the wrap-around example of the spec: capacity 16,
write 10 bytes, read 6, write 10 more, read the remaining 14; the reads
deliver exactly the 20 written bytes in order. -/
theorem fifo_correctness_witness :
    (0:Nat) < 16 ∧
    ∃ t, ([1,2,3,4,5,6,7,8,9,10,11,12,13,14,15,16,17,18,19,20] : List Nat) ++ t =
      [1,2,3,4,5,6,7,8,9,10,11,12,13,14,15,16,17,18,19,20] :=
  ⟨by decide,
   fifo_correctness 16
     [Op.write [1,2,3,4,5,6,7,8,9,10], Op.read 6,
      Op.write [11,12,13,14,15,16,17,18,19,20], Op.read 14]
     { data := [17,18,19,20,5,6,7,8,9,10,11,12,13,14,15,16],
       read_pos := 4, write_pos := 4, size := 0 }
     [1,2,3,4,5,6,7,8,9,10,11,12,13,14,15,16,17,18,19,20]
     [1,2,3,4,5,6,7,8,9,10,11,12,13,14,15,16,17,18,19,20]
     (by decide) (by decide)⟩

/-- Claim C2: ring-buffer state invariant.  After any sequence of completed
`write_to_buffer` / `read_from_buffer` calls starting from
`init_circular_buffer`, the state satisfies `0 ≤ size ≤ BUFFER_SIZE`,
`read_pos` and `write_pos` lie in `[0, BUFFER_SIZE)`, and `size` is
congruent to `write_pos - read_pos` modulo `BUFFER_SIZE` (in `ℕ` the lower
bounds `0 ≤ size`, `0 ≤ read_pos`, `0 ≤ write_pos` are automatic, matching
the C `size_t` fields). -/
theorem ring_buffer_state_invariant (C : Nat) (buf : CircularBuffer)
    (hC : 0 < C) (h : Reachable C buf) :
    buf.size ≤ C ∧ buf.read_pos < C ∧ buf.write_pos < C ∧
      Int.ModEq (C : Int) (buf.size : Int)
        ((buf.write_pos : Int) - (buf.read_pos : Int)) := by
  obtain ⟨hdata, hr, hsz, hwp⟩ := reachable_bufInv C hC buf h
  refine ⟨hsz, hr, ?_, ?_⟩
  · rw [hwp]
    exact Nat.mod_lt _ hC
  · have h1 : (buf.write_pos : ℤ) =
        ((buf.read_pos : ℤ) + (buf.size : ℤ)) % (C : ℤ) := by
      rw [hwp]
      push_cast
      rfl
    have h2 : ((buf.write_pos : ℤ) - (buf.read_pos : ℤ)) % (C : ℤ) =
        (buf.size : ℤ) % (C : ℤ) := by
      calc ((buf.write_pos : ℤ) - (buf.read_pos : ℤ)) % (C : ℤ)
          = (((buf.read_pos : ℤ) + (buf.size : ℤ)) % (C : ℤ) -
              (buf.read_pos : ℤ)) % (C : ℤ) := by rw [h1]
        _ = (((buf.read_pos : ℤ) + (buf.size : ℤ)) % (C : ℤ) % (C : ℤ) -
              (buf.read_pos : ℤ) % (C : ℤ)) % (C : ℤ) := Int.sub_emod _ _ _
        _ = (((buf.read_pos : ℤ) + (buf.size : ℤ)) % (C : ℤ) -
              (buf.read_pos : ℤ) % (C : ℤ)) % (C : ℤ) := by
              rw [Int.emod_emod_of_dvd _ dvd_rfl]
        _ = (((buf.read_pos : ℤ) + (buf.size : ℤ)) -
              (buf.read_pos : ℤ)) % (C : ℤ) := (Int.sub_emod _ _ _).symm
        _ = (buf.size : ℤ) % (C : ℤ) := by rw [add_sub_cancel_left]
    exact h2.symm

/-- Witness for C2: the state reached by writing three bytes into a fresh
capacity-16 buffer satisfies the invariant. -/
theorem ring_buffer_state_invariant_witness :
    ({ data := [1,2,3,0,0,0,0,0,0,0,0,0,0,0,0,0], read_pos := 0,
       write_pos := 3, size := 3 } : CircularBuffer).size ≤ 16 ∧
    ({ data := [1,2,3,0,0,0,0,0,0,0,0,0,0,0,0,0], read_pos := 0,
       write_pos := 3, size := 3 } : CircularBuffer).read_pos < 16 ∧
    ({ data := [1,2,3,0,0,0,0,0,0,0,0,0,0,0,0,0], read_pos := 0,
       write_pos := 3, size := 3 } : CircularBuffer).write_pos < 16 ∧
      Int.ModEq (16 : Int)
        (({ data := [1,2,3,0,0,0,0,0,0,0,0,0,0,0,0,0], read_pos := 0,
            write_pos := 3, size := 3 } : CircularBuffer).size : Int)
        ((({ data := [1,2,3,0,0,0,0,0,0,0,0,0,0,0,0,0], read_pos := 0,
             write_pos := 3, size := 3 } : CircularBuffer).write_pos : Int) -
         (({ data := [1,2,3,0,0,0,0,0,0,0,0,0,0,0,0,0], read_pos := 0,
             write_pos := 3, size := 3 } : CircularBuffer).read_pos : Int)) :=
  ring_buffer_state_invariant 16 _ (by decide)
    (Reachable.write Reachable.init
      (show write_to_buffer 16 true (init_circular_buffer 16) [1,2,3] =
        some ({ data := [1,2,3,0,0,0,0,0,0,0,0,0,0,0,0,0], read_pos := 0,
                write_pos := 3, size := 3 }, 3) by decide))

/-- Claim C3: silence-fill on shutdown.  When an iteration of
`read_from_buffer` finds the buffer empty and the shutdown check inside the
empty-buffer branch reads `keep_running == 0` (second flag read `false`;
the iteration was entered, so the `while`-guard read was still `true`), the
call zeroes the remainder `[bytes_read, size)` of the caller's destination
and returns the full requested `size`, for any `is_audio_playing` value. -/
theorem read_shutdown_silence_fill (C : Nat) (playing : Bool) (size br : Nat)
    (buf : CircularBuffer) (dst : List Nat)
    (hg : br < size) (he : buf.size = 0) :
    read_step C true false playing size buf dst br =
      ReadStep.done buf
        (dst.take br ++ List.replicate (size - br) 0 ++ dst.drop size) size := by
  rw [read_step_empty_done C true false playing size buf dst br hg rfl he
        (Or.inl rfl)]
  unfold memsetList memcpyList
  rw [List.length_replicate]
  have h : br + (size - br) = size := by omega
  rw [h]

/-- Witness for C3: shutdown observed with one of four bytes already read;
the remaining three are zero-filled and the full count 4 is returned. -/
theorem read_shutdown_silence_fill_witness :
    1 < 4 ∧ (init_circular_buffer 16).size = 0 ∧
    read_step 16 true false true 4 (init_circular_buffer 16) [7,7,7,7] 1 =
      ReadStep.done (init_circular_buffer 16)
        (([7,7,7,7] : List Nat).take 1 ++ List.replicate (4 - 1) 0 ++
          ([7,7,7,7] : List Nat).drop 4) 4 :=
  ⟨by decide, by decide,
   read_shutdown_silence_fill 16 true 4 1 (init_circular_buffer 16) [7,7,7,7]
     (by decide) (by decide)⟩

/-- Counterexample to C4 as stated: for requested sizes 1..9 (here 5) the
"10% of the requested length" is `5 / 10 = 0` bytes, so the timed-out
iteration fills nothing and returns to the exact same loop state — the call
never fills anything and never returns control to the caller (the fueled
model reports the permanent block as `none`), contradicting the claim's
"for every requested size ≥ 1". -/
theorem read_timeout_small_size_counterexample :
    read_step 16 true true true 5 (init_circular_buffer 16) [7,7,7,7,7] 0 =
      ReadStep.next (init_circular_buffer 16) [7,7,7,7,7] 0 ∧
    read_from_buffer 16 true true (init_circular_buffer 16) [7,7,7,7,7] 5 =
      none :=
  ⟨by decide, by decide⟩

/-- Claim C4 (amended): for every requested `size ≥ 10`, when
`read_from_buffer` waits on an empty buffer while the stream is Playing and
the 5 ms timeout elapses with no data arriving, the timed-out iteration
fills `size / 10` bytes (10% of the requested length, integer division) of
the destination with silence, and the call as a whole returns control to the
caller (with at least `size` zero bytes) rather than blocking indefinitely.
For `1 ≤ size ≤ 9` the 10% fraction is zero bytes and the call loops
forever (see the counterexample). -/
theorem read_timeout_starved_fill (C size : Nat) (buf : CircularBuffer)
    (dst : List Nat) (h10 : 10 ≤ size) (he : buf.size = 0)
    (hdst : dst.length = size) :
    read_step C true true true size buf dst 0 =
      ReadStep.next buf (memsetList dst 0 (size / 10)) (size / 10) ∧
    ∃ n, size ≤ n ∧
      read_from_buffer C true true buf dst size =
        some (buf, List.replicate n 0, n) := by
  constructor
  · rw [read_step_timeout C true true true size buf dst 0 (by omega) rfl he rfl
        rfl (by omega), Nat.zero_add]
  · have hs : 0 < size / 10 := by omega
    have h := read_loop_starved C size hs dst hdst buf he (size + 2) 0 (by omega)
    unfold read_from_buffer
    simpa using h

/-- Witness for C4 (amended) at size 20: each timeout fills 2 bytes and the
call returns 20 zero bytes. -/
theorem read_timeout_starved_fill_witness :
    10 ≤ 20 ∧ (init_circular_buffer 16).size = 0 ∧
      (List.replicate 20 7).length = 20 ∧
    (read_step 16 true true true 20 (init_circular_buffer 16)
        (List.replicate 20 7) 0 =
      ReadStep.next (init_circular_buffer 16)
        (memsetList (List.replicate 20 7) 0 (20 / 10)) (20 / 10) ∧
    ∃ n, 20 ≤ n ∧
      read_from_buffer 16 true true (init_circular_buffer 16)
          (List.replicate 20 7) 20 =
        some (init_circular_buffer 16, List.replicate n 0, n)) :=
  ⟨by decide, by decide, by decide,
   read_timeout_starved_fill 16 20 (init_circular_buffer 16)
     (List.replicate 20 7) (by decide) (by decide) (by decide)⟩

/-- Counterexample to C5 as stated: the claim also covers the
`read_from_buffer` of `A9.c` (lines 168-209), whose empty-buffer branch
checks only `!keep_running` — it has no `is_audio_playing` check — and
otherwise parks in an untimed `pthread_cond_wait`.  At `N = 5` with
`keep_running = 1` and an empty buffer (the Idle scenario), the very first
iteration parks in the wait (`read_step_A9 ... = none`) and the call blocks
indefinitely instead of returning 5 zero bytes. -/
theorem read_idle_blocked_A9_counterexample :
    read_step_A9 16 true true 5 (init_circular_buffer 16) [7,7,7,7,7] 0 =
      none ∧
    read_from_buffer_A9 16 true (init_circular_buffer 16) [7,7,7,7,7] 5 =
      none :=
  ⟨by decide, by decide⟩

/-- Claim C5 (amended): silence-fill while Idle holds for `part_005`'s
`read_from_buffer` only.  For every `N ≥ 0`, calling that function for `N`
bytes while the stream is Idle (`is_audio_playing = 0`, `keep_running = 1`)
and the buffer is empty returns exactly `N` zero bytes — never garbage and
never an indefinite block.  The `A9.c` variant, whose empty-buffer branch
has no `is_audio_playing` check, instead parks in an untimed
`pthread_cond_wait` whenever `N ≥ 1`: sequentially it blocks indefinitely
and never silence-fills while merely Idle. -/
theorem read_idle_silence_amended (C N : Nat) (buf : CircularBuffer)
    (dst : List Nat) (he : buf.size = 0) (hdst : dst.length = N) :
    read_from_buffer C true false buf dst N =
      some (buf, List.replicate N 0, N) ∧
    (0 < N → read_from_buffer_A9 C true buf dst N = none) := by
  constructor
  · exact read_silence C buf dst N he hdst
  · intro hN
    unfold read_from_buffer_A9
    show read_loop_A9 C true N ((N + 1) + 1) buf dst 0 = none
    rw [read_loop_A9]
    have hstep : read_step_A9 C true true N buf dst 0 = none := by
      unfold read_step_A9
      rw [if_pos ⟨hN, rfl⟩, if_pos he, if_neg (by simp)]
    rw [hstep]

/-- Witness for C5 (amended) at `N = 5` with a garbage-filled destination:
`part_005` returns five zero bytes, `A9.c` blocks. -/
theorem read_idle_silence_amended_witness :
    (init_circular_buffer 16).size = 0 ∧ ([7,7,7,7,7] : List Nat).length = 5 ∧
    read_from_buffer 16 true false (init_circular_buffer 16) [7,7,7,7,7] 5 =
      some (init_circular_buffer 16, List.replicate 5 0, 5) ∧
    read_from_buffer_A9 16 true (init_circular_buffer 16) [7,7,7,7,7] 5 =
      none :=
  ⟨by decide, by decide,
   (read_idle_silence_amended 16 5 (init_circular_buffer 16) [7,7,7,7,7]
     (by decide) (by decide)).1,
   (read_idle_silence_amended 16 5 (init_circular_buffer 16) [7,7,7,7,7]
     (by decide) (by decide)).2 (by decide)⟩

/-- Claim C6: the write contract.  With the stream running
(`keep_running = 1`): a call on a full buffer with data to write blocks
(sequentially: the `pthread_cond_wait` never returns, modelled `none`);
every completed call returns exactly the requested byte count, never fewer;
and when the data fits in the free space it is copied in one pass
(`writeChunk` splits it into two `memcpy` segments exactly when the run
wraps) with the bytes appended to the buffered contents in order.  With
`keep_running = 0` (shutting down) the call returns immediately with
`bytes_written = 0`, the only way to return fewer bytes than requested. -/
theorem write_contract (C : Nat) (buf : CircularBuffer) (data : List Nat)
    (hInv : BufInv C buf) :
    (buf.size = C → data ≠ [] → write_to_buffer C true buf data = none) ∧
    (∀ buf' n, write_to_buffer C true buf data = some (buf', n) →
      n = data.length) ∧
    (write_to_buffer C false buf data = some (buf, 0)) ∧
    (data.length + buf.size ≤ C →
      ∃ buf', write_to_buffer C true buf data = some (buf', data.length) ∧
        contents C buf' = contents C buf ++ data) := by
  refine ⟨?_, ?_, ?_, ?_⟩
  · intro hfull hne
    unfold write_to_buffer
    apply write_loop_blocked
    · intro hlen
      exact hne (List.eq_nil_of_length_eq_zero hlen)
    · rfl
    · rw [hfull, Nat.sub_self]
  · intro buf' n h
    unfold write_to_buffer at h
    have := write_loop_count C (data.length + 1) buf data 0 buf' n h
    omega
  · unfold write_to_buffer
    exact write_loop_done _ _ _ _ _ _ (Or.inr rfl)
  · intro hfit
    obtain ⟨buf', heq, _, hcont⟩ := write_to_buffer_fits C buf data hInv hfit
    exact ⟨buf', heq, hcont⟩

/-- Witness for C6: a full capacity-4 buffer blocks a one-byte write. -/
theorem write_contract_witness :
    BufInv 4 { data := [1,2,3,4], read_pos := 0, write_pos := 0, size := 4 } ∧
    write_to_buffer 4 true
      { data := [1,2,3,4], read_pos := 0, write_pos := 0, size := 4 } [9] =
      none :=
  ⟨by decide,
   (write_contract 4
      { data := [1,2,3,4], read_pos := 0, write_pos := 0, size := 4 }
      [9] (by decide)).1 (by decide) (by decide)⟩

/-- Claim C7: wrap-around copy safety.  In every transfer of
`write_to_buffer` / `read_from_buffer` the contiguous first chunk is
`BUFFER_SIZE - position`; a single `memcpy` is used exactly when the
transfer fits within it; each `memcpy` segment satisfies
start + length ≤ BUFFER_SIZE; the backing array keeps length `BUFFER_SIZE`
(no write past its end) and a read of `n` bytes yields exactly `n` bytes
(no read past its end). -/
theorem wrap_copy_safety (C : Nat) (buf : CircularBuffer) (chunk : List Nat)
    (n : Nat) (hInv : BufInv C buf) (hw : chunk.length + buf.size ≤ C)
    (hn : n ≤ buf.size) :
    ((chunk.length ≤ C - buf.write_pos →
        (writeChunk C buf chunk).data = memcpyList buf.data buf.write_pos chunk ∧
          buf.write_pos + chunk.length ≤ C) ∧
      (C - buf.write_pos < chunk.length →
        (writeChunk C buf chunk).data =
          memcpyList (memcpyList buf.data buf.write_pos
              (chunk.take (C - buf.write_pos))) 0
            (chunk.drop (C - buf.write_pos)) ∧
          buf.write_pos + (C - buf.write_pos) ≤ C ∧
          chunk.length - (C - buf.write_pos) ≤ C) ∧
      (writeChunk C buf chunk).data.length = C) ∧
    ((n ≤ C - buf.read_pos →
        (readChunk C buf n).2 = (buf.data.drop buf.read_pos).take n ∧
          buf.read_pos + n ≤ C) ∧
      (C - buf.read_pos < n →
        (readChunk C buf n).2 =
          (buf.data.drop buf.read_pos).take (C - buf.read_pos) ++
            buf.data.take (n - (C - buf.read_pos)) ∧
          buf.read_pos + (C - buf.read_pos) ≤ C ∧
          n - (C - buf.read_pos) ≤ C) ∧
      (readChunk C buf n).2.length = n) := by
  obtain ⟨hdata, hr, hsz, hwp⟩ := hInv
  have hC : 0 < C := by omega
  have hwlt : buf.write_pos < C := by rw [hwp]; exact Nat.mod_lt _ hC
  refine ⟨⟨?_, ?_, ?_⟩, ⟨?_, ?_, ?_⟩⟩
  · intro h
    constructor
    · unfold writeChunk
      dsimp only
      rw [if_pos h]
    · omega
  · intro h
    refine ⟨?_, by omega, by omega⟩
    unfold writeChunk
    dsimp only
    rw [if_neg (by omega)]
  · exact writeChunk_data_length C buf chunk hdata hwlt (by omega)
  · intro h
    constructor
    · unfold readChunk
      dsimp only
      rw [if_pos h]
    · omega
  · intro h
    refine ⟨?_, by omega, by omega⟩
    unfold readChunk
    dsimp only
    rw [if_neg (by omega)]
  · rw [readChunk_out C buf n hdata hr (by omega)]
    simp [List.length_map, List.length_range]

/-- Witness for C7: capacity 4, a wrapped state (`read_pos = 3`,
`write_pos = 1`, 2 bytes buffered), a 2-byte write and a 2-byte read, both
of which wrap. -/
theorem wrap_copy_safety_witness :
    BufInv 4 { data := [1,2,3,4], read_pos := 3, write_pos := 1, size := 2 } ∧
    (writeChunk 4 { data := [1,2,3,4], read_pos := 3, write_pos := 1, size := 2 }
        [7,8]).data.length = 4 ∧
    (readChunk 4 { data := [1,2,3,4], read_pos := 3, write_pos := 1, size := 2 }
        2).2.length = 2 :=
  ⟨by decide,
   (wrap_copy_safety 4
      { data := [1,2,3,4], read_pos := 3, write_pos := 1, size := 2 }
      [7,8] 2 (by decide) (by decide) (by decide)).1.2.2,
   (wrap_copy_safety 4
      { data := [1,2,3,4], read_pos := 3, write_pos := 1, size := 2 }
      [7,8] 2 (by decide) (by decide) (by decide)).2.2.2⟩

/-- Counterexample to C8 as stated: `create_circular_buffer` performs no
capacity validation and signals no `ConfigurationError`; constructing a
buffer with capacity `0` (≤ 0) succeeds when allocation succeeds, yielding a
zero-capacity buffer instead of a hard failure. -/
theorem create_zero_capacity_accepted :
    create_circular_buffer 0 true true =
      some { buffer := [], size := 0, read_pos := 0, write_pos := 0,
             count := 0 } := by
  decide

/-- Claim C8 (amended): the code performs no capacity validation — the only
construction failure of `create_circular_buffer` is allocation failure
(`NULL` return), for every capacity including `≤ 0`; and write and read
never return an error for the buffer being full or empty: `write_message` /
`read_message` block on full/empty and return `TRUE` whenever they return,
and `write_to_buffer` blocks (never errors) on a full buffer. -/
theorem buffer_failure_taxonomy (size : Int) (m1 m2 : Bool) (mbuf : MsgBuffer)
    (msg : Nat) (C : Nat) (buf : CircularBuffer) (data : List Nat) :
    (create_circular_buffer size m1 m2 = none ↔ m1 = false ∨ m2 = false) ∧
    (∀ b r, write_message mbuf msg = some (b, r) → r = true) ∧
    (∀ b m r, read_message mbuf = some (b, m, r) → r = true) ∧
    (mbuf.count = mbuf.size → write_message mbuf msg = none) ∧
    (mbuf.count = 0 → read_message mbuf = none) ∧
    (buf.size = C → data ≠ [] → write_to_buffer C true buf data = none) := by
  refine ⟨?_, ?_, ?_, ?_, ?_, ?_⟩
  · unfold create_circular_buffer
    cases m1 <;> cases m2 <;> simp
  · intro b r h
    unfold write_message at h
    split at h
    · exact absurd h (by simp)
    · simp only [Option.some.injEq, Prod.mk.injEq] at h
      exact h.2.symm
  · intro b m r h
    unfold read_message at h
    split at h
    · exact absurd h (by simp)
    · simp only [Option.some.injEq, Prod.mk.injEq] at h
      exact h.2.2.symm
  · intro hc
    unfold write_message
    rw [if_pos hc]
  · intro hc
    unfold read_message
    rw [if_pos hc]
  · intro hfull hne
    unfold write_to_buffer
    apply write_loop_blocked
    · intro hlen
      exact hne (List.eq_nil_of_length_eq_zero hlen)
    · rfl
    · rw [hfull, Nat.sub_self]

/-- Witness for C8 (amended): allocation failure is the only `NULL` return
(capacity −3 with a failed first malloc); a full message buffer blocks
`write_message`, an empty one blocks `read_message`; a full byte buffer
blocks `write_to_buffer`. -/
theorem buffer_failure_taxonomy_witness :
    (create_circular_buffer (-3) false true = none ↔
      false = false ∨ true = false) ∧
    write_message
      { buffer := [5], size := 1, read_pos := 0, write_pos := 0, count := 1 }
      9 = none ∧
    read_message
      { buffer := [5], size := 1, read_pos := 0, write_pos := 0, count := 0 } =
      none ∧
    write_to_buffer 4 true
      { data := [1,2,3,4], read_pos := 0, write_pos := 0, size := 4 } [9] =
      none :=
  ⟨(buffer_failure_taxonomy (-3) false true
      { buffer := [5], size := 1, read_pos := 0, write_pos := 0, count := 1 }
      9 4 { data := [1,2,3,4], read_pos := 0, write_pos := 0, size := 4 }
      [9]).1,
   (buffer_failure_taxonomy (-3) false true
      { buffer := [5], size := 1, read_pos := 0, write_pos := 0, count := 1 }
      9 4 { data := [1,2,3,4], read_pos := 0, write_pos := 0, size := 4 }
      [9]).2.2.2.1 (by decide),
   (buffer_failure_taxonomy (-3) false true
      { buffer := [5], size := 1, read_pos := 0, write_pos := 0, count := 0 }
      9 4 { data := [1,2,3,4], read_pos := 0, write_pos := 0, size := 4 }
      [9]).2.2.2.2.1 (by decide),
   (buffer_failure_taxonomy (-3) false true
      { buffer := [5], size := 1, read_pos := 0, write_pos := 0, count := 1 }
      9 4 { data := [1,2,3,4], read_pos := 0, write_pos := 0, size := 4 }
      [9]).2.2.2.2.2 (by decide) (by decide)⟩

/-- Claim C9, code evaluated at the failing state: a producer that entered
`write_to_buffer` with the buffer full while `keep_running` was still set is
parked in `pthread_cond_wait(&not_full, ...)` (the sequential outcome
`none`: it can only return if some other thread signals or a spurious wake
occurs).  Setting `keep_running = 0` at shutdown signals neither condition
variable (`part_005` line 999, `A9.c` lines 1068-1077), and the write-side
wait has no timeout, so the flag check in the loop guard is never reached
again and the thread need not return. -/
theorem write_blocked_awaiting_signal :
    write_to_buffer 4 true
      { data := [1,2,3,4], read_pos := 0, write_pos := 0, size := 4 } [9] =
      none := by
  decide

/-- Claim C10: stop does not flush the buffer.  `play_audio` and
`stop_audio` mutate only `is_audio_playing`, leaving the buffer (data array,
`read_pos`, `write_pos`, `size`) and `keep_running` unchanged; consequently,
after a stop/restart, a read of `n ≤ size` bytes delivers the oldest `n`
buffered bytes (the bytes written before the stop), not silence. -/
theorem stop_start_preserves_buffer (C n : Nat) (s : AudioState)
    (dst : List Nat) (hInv : BufInv C s.audio_buffer)
    (hkr : s.keep_running = true) (hn : n ≤ s.audio_buffer.size) :
    (stop_audio s).audio_buffer = s.audio_buffer ∧
    (play_audio (stop_audio s)).audio_buffer = s.audio_buffer ∧
    (stop_audio s).keep_running = s.keep_running ∧
    (play_audio (stop_audio s)).keep_running = s.keep_running ∧
    ∃ buf', read_from_buffer C (play_audio (stop_audio s)).keep_running
        (play_audio (stop_audio s)).is_audio_playing
        (play_audio (stop_audio s)).audio_buffer dst n =
      some (buf', memcpyList dst 0 ((contents C s.audio_buffer).take n), n) := by
  refine ⟨rfl, rfl, rfl, rfl, ?_⟩
  show ∃ buf', read_from_buffer C s.keep_running true s.audio_buffer dst n = _
  rw [hkr]
  obtain ⟨buf', heq, _, _⟩ :=
    read_from_buffer_fits C true s.audio_buffer dst n hInv hn
  exact ⟨buf', heq⟩

/-- The concrete three-byte buffer used by the C10 witness. -/
def demoBuffer : CircularBuffer :=
  { data := [1,2,3,0,0,0,0,0,0,0,0,0,0,0,0,0], read_pos := 0, write_pos := 3,
    size := 3 }

/-- The concrete audio state used by the C10 witness. -/
def demoAudioState : AudioState :=
  { audio_buffer := demoBuffer, is_audio_playing := true, keep_running := true }

/-- Witness for C10: three buffered bytes survive a stop/restart and the
first two are delivered unchanged. -/
theorem stop_start_preserves_buffer_witness :
    BufInv 16 demoAudioState.audio_buffer ∧
    ∃ buf', read_from_buffer 16
        (play_audio (stop_audio demoAudioState)).keep_running
        (play_audio (stop_audio demoAudioState)).is_audio_playing
        (play_audio (stop_audio demoAudioState)).audio_buffer [9,9] 2 =
      some (buf',
        memcpyList [9,9] 0 ((contents 16 demoAudioState.audio_buffer).take 2),
        2) :=
  ⟨by decide,
   (stop_start_preserves_buffer 16 2 demoAudioState [9,9] (by decide) rfl
      (by decide)).2.2.2.2⟩
